import Mathlib

/-!
Verification of the bibletexts.github.io migration toolkit
(`convert_html.py`, `build_search_index.py`, `setup.py`).

The HTML documents manipulated by both pipelines are modelled as a forest of
DOM nodes (`Node`): text nodes, comment nodes, and element nodes carrying a
tag name, an attribute map (BeautifulSoup keeps one value per attribute name)
and an ordered child list.  Each Python pass is translated into a pure Lean
function over this forest; BeautifulSoup in-place mutation becomes
construction of the rewritten forest.
-/

namespace BT

/-- A DOM node as produced by BeautifulSoup's `html.parser` tree builder:
a `NavigableString` (text), a `Comment`, or a `Tag` with a tag name,
attributes and children. -/
inductive Node where
  | text : String → Node
  | comment : String → Node
  | elem : String → List (String × String) → List Node → Node
deriving Repr

/-- Attribute list of a tag: ordered `(name, value)` pairs, names unique. -/
abbrev Attrs := List (String × String)

mutual
def Node.beq : Node → Node → Bool
  | .text s, .text t => s == t
  | .comment s, .comment t => s == t
  | .elem t1 a1 c1, .elem t2 a2 c2 => t1 == t2 && a1 == a2 && Node.beqList c1 c2
  | _, _ => false
def Node.beqList : List Node → List Node → Bool
  | [], [] => true
  | x :: xs, y :: ys => Node.beq x y && Node.beqList xs ys
  | _, _ => false
end

mutual
theorem Node.beq_correct : ∀ a b : Node, Node.beq a b = true ↔ a = b
  | .text s, .text t => by simp [Node.beq]
  | .text _, .comment _ => by simp [Node.beq]
  | .text _, .elem _ _ _ => by simp [Node.beq]
  | .comment _, .text _ => by simp [Node.beq]
  | .comment s, .comment t => by simp [Node.beq]
  | .comment _, .elem _ _ _ => by simp [Node.beq]
  | .elem _ _ _, .text _ => by simp [Node.beq]
  | .elem _ _ _, .comment _ => by simp [Node.beq]
  | .elem t1 a1 c1, .elem t2 a2 c2 => by
    simp only [Node.beq, Bool.and_eq_true, beq_iff_eq, Node.elem.injEq]
    rw [Node.beqList_correct c1 c2]
    tauto
theorem Node.beqList_correct : ∀ a b : List Node, Node.beqList a b = true ↔ a = b
  | [], [] => by simp [Node.beqList]
  | [], _ :: _ => by simp [Node.beqList]
  | _ :: _, [] => by simp [Node.beqList]
  | x :: xs, y :: ys => by
    simp only [Node.beqList, Bool.and_eq_true, List.cons.injEq]
    rw [Node.beq_correct x y, Node.beqList_correct xs ys]
end

instance : DecidableEq Node := fun a b =>
  decidable_of_iff (Node.beq a b = true) (Node.beq_correct a b)

/-- `tag.name` of an element; `""` for strings/comments. -/
def Node.tagOf : Node → String
  | .elem t _ _ => t
  | _ => ""

/-- `tag.attrs` of an element. -/
def Node.attrsOf : Node → Attrs
  | .elem _ a _ => a
  | _ => []

/-- `tag.contents` of an element. -/
def Node.childrenOf : Node → List Node
  | .elem _ _ c => c
  | _ => []

/-- Tag name together with the attribute map: the identity of a relocated
element (its subtree may change, its head does not). -/
def Node.headOf : Node → String × Attrs
  | .elem t a _ => (t, a)
  | .text s => ("#text", [(s, "")])
  | .comment s => ("#comment", [(s, "")])

/-- `tag.get(key)` / `tag[key]` lookup: first binding of the attribute. -/
def getAttr (a : Attrs) (k : String) : Option String :=
  (a.find? (fun p => p.1 == k)).map (fun p => p.2)

/-- `key in tag.attrs`. -/
def hasAttr (a : Attrs) (k : String) : Bool :=
  a.any (fun p => p.1 == k)

/-- `tag[key] = v`: overwrite the existing binding in place, else append. -/
def setAttr (a : Attrs) (k v : String) : Attrs :=
  match a with
  | [] => [(k, v)]
  | p :: rest => if p.1 == k then (k, v) :: rest else p :: setAttr rest k v

/-- Python truthiness of `tag.get(key)`: `None` and the empty string are
falsy, a non-empty string is truthy. -/
def truthy (o : Option String) : Bool :=
  match o with
  | none => false
  | some s => !s.isEmpty

/-- Python `s.startswith(p)`. -/
def strStarts (s p : String) : Bool :=
  p.data.isPrefixOf s.data

/-- One scanning step of Python `s.replace(pat, repl)` with explicit fuel
(the fuel is the length of the remaining input, which bounds the number of
steps since every step consumes at least one character). -/
def pyReplaceAux (pat repl : List Char) : Nat → List Char → List Char
  | 0, cs => cs
  | _ + 1, [] => []
  | fuel + 1, c :: rest =>
    if pat.isPrefixOf (c :: rest) then
      repl ++ pyReplaceAux pat repl fuel (rest.drop (pat.length - 1))
    else
      c :: pyReplaceAux pat repl fuel rest

/-- Python `s.replace(pat, repl)`: replace every non-overlapping occurrence
of `pat`, scanning left to right.  (The sources only ever call it with a
non-empty pattern; an empty pattern is returned unchanged here.) -/
def pyReplace (s pat repl : String) : String :=
  if pat.isEmpty then s
  else String.mk (pyReplaceAux pat.data repl.data s.data.length s.data)

/-- The allow-list of `_convert_to_html5`'s `find_all` call
(convert_html.py line 103). -/
def allowedTags : List String :=
  ["table", "p", "div", "ul", "ol", "li", "h1", "h2", "h3", "h4", "h5", "h6"]

mutual
/-- `soup.find_all(tags)` restricted to one node: the matching elements of
the subtree rooted at this node, in document (pre-)order; a matching element
is listed and its subtree is still searched. -/
def findTagsN (ts : List String) : Node → List Node
  | .text _ => []
  | .comment _ => []
  | .elem t a c =>
    (if t ∈ ts then [Node.elem t a c] else []) ++ findTagsL ts c
/-- `soup.find_all(tags)` over a forest, document order. -/
def findTagsL (ts : List String) : List Node → List Node
  | [] => []
  | n :: rest => findTagsN ts n ++ findTagsL ts rest
end

mutual
/-- The elements of the allow-list found by `find_all` in line 103,
with their original subtrees, in document order. -/
def preAllowedN : Node → List Node
  | .text _ => []
  | .comment _ => []
  | .elem t a c =>
    (if t ∈ allowedTags then [Node.elem t a c] else []) ++ preAllowedL c
def preAllowedL : List Node → List Node
  | [] => []
  | n :: rest => preAllowedN n ++ preAllowedL rest
end

mutual
/-- Residue of a node after the relocation loop of lines 104–107 has run:
every allow-listed descendant has been `extract()`ed (it reappears later as
a sibling inside the new body), everything else stays in place. -/
def dropAllowedN : Node → Option Node
  | .text s => some (.text s)
  | .comment s => some (.comment s)
  | .elem t a c =>
    if t ∈ allowedTags then none else some (.elem t a (dropAllowedL c))
def dropAllowedL : List Node → List Node
  | [] => []
  | n :: rest =>
    match dropAllowedN n with
    | some m => m :: dropAllowedL rest
    | none => dropAllowedL rest
end

mutual
/-- Net effect of convert_html.py lines 103–107 on one node: `find_all`
snapshots the allow-listed elements in document order, then each one in turn
is `extract()`ed from wherever it currently sits and appended to the new
`<body>`.  Each snapshot element therefore becomes a body child (in snapshot
order) whose subtree has lost its own allow-listed descendants — those were
extracted later in the same loop and follow as separate body children. -/
def hoistBodyN : Node → List Node
  | .text _ => []
  | .comment _ => []
  | .elem t a c =>
    if t ∈ allowedTags then Node.elem t a (dropAllowedL c) :: hoistBodyL c
    else hoistBodyL c
/-- Lines 103–107 over a forest: the child list of the freshly built body. -/
def hoistBodyL : List Node → List Node
  | [] => []
  | n :: rest => hoistBodyN n ++ hoistBodyL rest
end

mutual
/-- `soup.find('html')` search inside one node followed by `.unwrap()`:
returns the rewritten node and whether the first `<html>` element was found
(and replaced by its children) in this subtree. -/
def unwrapHtmlN : Node → (Node × Bool)
  | .text s => (.text s, false)
  | .comment s => (.comment s, false)
  | .elem t a c =>
    let r := unwrapHtmlL c
    (.elem t a r.1, r.2)
/-- convert_html.py lines 89–90: if the document contains an `<html>`
element, the first one in document order is unwrapped (replaced, in place,
by its children). -/
def unwrapHtmlL : List Node → (List Node × Bool)
  | [] => ([], false)
  | n :: rest =>
    match n with
    | .elem t a c =>
      if t == "html" then (c ++ rest, true)
      else
        let r := unwrapHtmlN (.elem t a c)
        if r.2 then (r.1 :: rest, true)
        else
          let r2 := unwrapHtmlL rest
          (r.1 :: r2.1, r2.2)
    | other =>
      let r2 := unwrapHtmlL rest
      (other :: r2.1, r2.2)
end

/-- `HTMLConverter._convert_to_html5` (convert_html.py lines 86–111).
Steps, in source order: unwrap an existing `<html>` wrapper (lines 89–90);
if the document is non-empty insert a `Comment('DOCTYPE html')` at position
0 (lines 93–94); build a fresh `<html lang="en">` skeleton with an empty
`<head>` and `<body>` (lines 97–100); move every allow-listed element into
the new body (lines 103–107); finally `soup.clear()` — which discards
everything still in the old tree, including the just-inserted comment — and
append the skeleton (lines 110–111). -/
def convertToHtml5 (doc : List Node) : List Node :=
  let doc1 := (unwrapHtmlL doc).1
  let doc2 := if doc1.isEmpty then doc1 else Node.comment "DOCTYPE html" :: doc1
  [Node.elem "html" [("lang", "en")]
    [Node.elem "head" [] [], Node.elem "body" [] (hoistBodyL doc2)]]

/-- Children of the first `<body>` element of a document, document order
(the skeleton body built by `_convert_to_html5` is always the first). -/
def outBodyChildren (doc : List Node) : List Node :=
  match findTagsL ["body"] doc with
  | b :: _ => b.childrenOf
  | [] => []

mutual
/-- All element tag names occurring anywhere in a subtree, document order. -/
def allElemTagsN : Node → List String
  | .text _ => []
  | .comment _ => []
  | .elem t _ c => t :: allElemTagsL c
/-- All element tag names occurring anywhere in a forest, document order. -/
def allElemTagsL : List Node → List String
  | [] => []
  | n :: rest => allElemTagsN n ++ allElemTagsL rest
end

mutual
/-- Whether a comment node occurs anywhere in a subtree. -/
def hasCommentN : Node → Bool
  | .text _ => false
  | .comment _ => true
  | .elem _ _ c => hasCommentL c
/-- Whether a comment node occurs anywhere in a forest. -/
def hasCommentL : List Node → Bool
  | [] => false
  | n :: rest => hasCommentN n || hasCommentL rest
end

/-! ### Lemmas about `_convert_to_html5` -/

mutual
theorem hoistBodyN_heads : ∀ n : Node,
    (hoistBodyN n).map Node.headOf = (preAllowedN n).map Node.headOf
  | .text _ => rfl
  | .comment _ => rfl
  | .elem t a c => by
    by_cases h : t ∈ allowedTags
    · simp [hoistBodyN, preAllowedN, h, Node.headOf, hoistBodyL_heads c]
    · simp [hoistBodyN, preAllowedN, h, hoistBodyL_heads c]
theorem hoistBodyL_heads : ∀ ds : List Node,
    (hoistBodyL ds).map Node.headOf = (preAllowedL ds).map Node.headOf
  | [] => rfl
  | n :: rest => by
    simp [hoistBodyL, preAllowedL, hoistBodyN_heads n, hoistBodyL_heads rest]
end

mutual
theorem hoistBodyN_allowed : ∀ n : Node,
    (hoistBodyN n).all (fun m => allowedTags.contains m.tagOf) = true
  | .text _ => rfl
  | .comment _ => rfl
  | .elem t a c => by
    by_cases h : t ∈ allowedTags
    · simp only [hoistBodyN, if_pos h, List.all_cons, Bool.and_eq_true]
      exact ⟨List.elem_eq_true_of_mem h, hoistBodyL_allowed c⟩
    · simpa only [hoistBodyN, if_neg h] using hoistBodyL_allowed c
theorem hoistBodyL_allowed : ∀ ds : List Node,
    (hoistBodyL ds).all (fun m => allowedTags.contains m.tagOf) = true
  | [] => rfl
  | n :: rest => by
    simp only [hoistBodyL, List.all_append, Bool.and_eq_true]
    exact ⟨hoistBodyN_allowed n, hoistBodyL_allowed rest⟩
end

theorem preAllowedL_append (xs ys : List Node) :
    preAllowedL (xs ++ ys) = preAllowedL xs ++ preAllowedL ys := by
  induction xs with
  | nil => rfl
  | cons n xs ih => simp [preAllowedL, ih]

mutual
theorem unwrapHtmlN_preAllowed : ∀ n : Node,
    (preAllowedN (unwrapHtmlN n).1).map Node.headOf = (preAllowedN n).map Node.headOf
  | .text _ => rfl
  | .comment _ => rfl
  | .elem t a c => by
    by_cases h : t ∈ allowedTags
    · simp [unwrapHtmlN, preAllowedN, if_pos h, Node.headOf, unwrapHtmlL_preAllowed c]
    · simp [unwrapHtmlN, preAllowedN, if_neg h, unwrapHtmlL_preAllowed c]
theorem unwrapHtmlL_preAllowed : ∀ ds : List Node,
    (preAllowedL (unwrapHtmlL ds).1).map Node.headOf = (preAllowedL ds).map Node.headOf
  | [] => rfl
  | n :: rest => by
    match n with
    | .text s => simpa [unwrapHtmlL, preAllowedL, preAllowedN]
        using unwrapHtmlL_preAllowed rest
    | .comment s => simpa [unwrapHtmlL, preAllowedL, preAllowedN]
        using unwrapHtmlL_preAllowed rest
    | .elem t a c =>
      by_cases h : t == "html"
      · have ht : t = "html" := by simpa using h
        subst ht
        have hna : "html" ∉ allowedTags := by decide
        simp [unwrapHtmlL, preAllowedL, preAllowedN, if_neg hna, preAllowedL_append]
      · by_cases h2 : (unwrapHtmlN (.elem t a c)).2
        · simp only [unwrapHtmlL, h, Bool.false_eq_true, if_neg, h2, if_pos]
          have := unwrapHtmlN_preAllowed (Node.elem t a c)
          simp only [preAllowedL, List.map_append, this, hoistBodyL]
        · simp only [unwrapHtmlL, h, Bool.false_eq_true, if_neg, h2, if_neg]
          have h3 := unwrapHtmlN_preAllowed (Node.elem t a c)
          have h4 := unwrapHtmlL_preAllowed rest
          simp only [preAllowedL, List.map_append, h3, h4]
end

theorem outBodyChildren_convertToHtml5 (doc : List Node) :
    outBodyChildren (convertToHtml5 doc) = hoistBodyL (unwrapHtmlL doc).1 := by
  by_cases h : (unwrapHtmlL doc).1.isEmpty
  · simp [convertToHtml5, h, outBodyChildren, findTagsL, findTagsN,
      Node.childrenOf, List.isEmpty_iff.mp h, hoistBodyL]
  · simp [convertToHtml5, h, outBodyChildren, findTagsL, findTagsN,
      Node.childrenOf, hoistBodyL, hoistBodyN]

/-- Document whose only allow-listed element contains a `<span>`. -/
def exSpanDoc : List Node := [.elem "p" [] [.elem "span" [] [.text "x"]]]

/-- C1, counterexample.  The claim states that no element whose tag is
outside the allow-list appears in the output body.  For the source document
`<p><span>x</span></p>` the relocated `<p>` keeps its non-allow-listed
child, so a `<span>` element survives inside the output body. -/
theorem claimC1_counterexample :
    "span" ∈ allElemTagsL (outBodyChildren (convertToHtml5 exSpanDoc))
    ∧ "span" ∉ allowedTags := by decide

/-- C1, amended.  After `_convert_to_html5`, the direct children of the new
body are exactly the allow-listed elements of the source document in
document (pre-)order — each identified by its tag and attributes — and
every direct child of the body carries an allow-listed tag.  (Elements
outside the allow-list are dropped at the top level but survive when nested
inside a relocated allow-listed element, and allow-listed descendants are
hoisted out as separate body children.) -/
theorem claimC1_theorem (doc : List Node) :
    (outBodyChildren (convertToHtml5 doc)).map Node.headOf
      = (preAllowedL doc).map Node.headOf
    ∧ (outBodyChildren (convertToHtml5 doc)).all
        (fun m => allowedTags.contains m.tagOf) = true := by
  rw [outBodyChildren_convertToHtml5]
  refine ⟨?_, hoistBodyL_allowed _⟩
  rw [hoistBodyL_heads, unwrapHtmlL_preAllowed]

/-! ### The remaining transformer passes of `convert_html.py` -/

mutual
/-- `soup.find(p)` followed by an in-place modification `f` of the found
node: rewrite the first matching node in pre-order, report whether one was
found.  Used for `find('head')`, `find('body')`. -/
def updFirstN (p : Node → Bool) (f : Node → Node) : Node → (Node × Bool)
  | .text s => if p (.text s) then (f (.text s), true) else (.text s, false)
  | .comment s => if p (.comment s) then (f (.comment s), true) else (.comment s, false)
  | .elem t a c =>
    if p (.elem t a c) then (f (.elem t a c), true)
    else
      let r := updFirstL p f c
      (.elem t a r.1, r.2)
/-- `soup.find(p)` + modify, over a forest. -/
def updFirstL (p : Node → Bool) (f : Node → Node) : List Node → (List Node × Bool)
  | [] => ([], false)
  | n :: rest =>
    let r := updFirstN p f n
    if r.2 then (r.1 :: rest, true)
    else
      let r2 := updFirstL p f rest
      (r.1 :: r2.1, r2.2)
end

/-- The `<meta charset>`, `<meta viewport>`, `<meta description>` tags of
`_add_modern_structure` (lines 120–127). -/
def injectedMetas : List Node :=
  [.elem "meta" [("charset", "utf-8")] [],
   .elem "meta" [("name", "viewport"), ("content", "width=device-width, initial-scale=1.0")] [],
   .elem "meta" [("name", "description"), ("content", "Bible study resources and commentary")] []]

/-- The stylesheet link and the three deferred scripts (lines 134–150).
`js_script['defer'] = True` is a boolean attribute; it is modelled with an
empty string value. -/
def injectedAssets : List Node :=
  [.elem "link" [("rel", "stylesheet"), ("href", "css/modern-styles.css")] [],
   .elem "script" [("src", "js/modern-features.js"), ("defer", "")] [],
   .elem "script" [("src", "js/search.js"), ("defer", "")] [],
   .elem "script" [("src", "js/search-index.js"), ("defer", "")] []]

/-- The skip-navigation anchor (lines 153–154). -/
def skipLink : Node :=
  .elem "a" [("href", "#main-content"), ("class", "skip-link")] [.text "Skip to main content"]

/-- Head rewrite of `_add_modern_structure`: three metas inserted at
positions 0–2, assets appended at the end. -/
def updHead : Node → Node
  | .elem t a c => .elem t a (injectedMetas ++ c ++ injectedAssets)
  | other => other

/-- Body rewrite of `_add_modern_structure`: skip link inserted at 0. -/
def updBody : Node → Node
  | .elem t a c => .elem t a (skipLink :: c)
  | other => other

/-- `HTMLConverter._add_modern_structure` (lines 113–155): if the document
has no `<head>` the pass returns immediately; otherwise the first head gets
the metas and asset references and the first body gets the skip link.
(In the pipeline this always runs on the skeleton built by
`_convert_to_html5`, which has exactly one head and one body.) -/
def addModernStructure (doc : List Node) : List Node :=
  if (findTagsL ["head"] doc).isEmpty then doc
  else
    let doc1 := (updFirstL (fun n => n.tagOf == "head") updHead doc).1
    (updFirstL (fun n => n.tagOf == "body") updBody doc1).1

/-- The layout-table test of `_convert_tables` (lines 162–166):
`width == '100%'`, or truthy `cellpadding`, or truthy `cellspacing`
(Python truthiness: an attribute present with the empty-string value is
falsy), or a `bgcolor` attribute present with any value. -/
def layoutSignal (a : Attrs) : Bool :=
  (getAttr a "width" == some "100%")
    || truthy (getAttr a "cellpadding")
    || truthy (getAttr a "cellspacing")
    || hasAttr a "bgcolor"

/-- One row of a layout table (lines 173–195): `row.find_all(['td','th'])`
(recursive within the row), then 1 cell → `<section>`, 2 cells →
two-column wrapper, any other count → grid wrapper with one `<div>`
per cell; in every case the cell contents are carried over in order. -/
def rowToSection (row : Node) : Node :=
  let cells := findTagsL ["td", "th"] row.childrenOf
  match cells with
  | [c1] => .elem "section" [("class", "content-section")] c1.childrenOf
  | [c1, c2] =>
    .elem "div" [("class", "two-column-layout")]
      [.elem "div" [("class", "column column-1")] c1.childrenOf,
       .elem "div" [("class", "column column-2")] c2.childrenOf]
  | cs =>
    .elem "div" [("class", "grid-layout")]
      (cs.map (fun cell => .elem "div" [("class", "grid-item")] cell.childrenOf))

mutual
/-- `HTMLConverter._convert_tables` (lines 157–198) on one node.  Every
`<table>` in the `find_all` snapshot showing a layout signal is replaced,
in place, by a `<div class="modern-layout">` holding one section per
`find_all('tr')` row; other nodes are kept and their subtrees rewritten.
This compositional rewrite agrees with the Python in-place loop whenever no
table-machinery element (`table`/`tr`/`td`/`th`) is nested inside a cell of
a converted table (when one is, the Python loop moves shared cell contents
and guts the inner table; the C2 theorems are restricted accordingly). -/
def convertTablesN : Node → Node
  | .text s => .text s
  | .comment s => .comment s
  | .elem t a c =>
    if t == "table" && layoutSignal a then
      .elem "div" [("class", "modern-layout")] ((findTagsL ["tr"] c).map rowToSection)
    else
      .elem t a (convertTablesL c)
/-- `_convert_tables` over a forest. -/
def convertTablesL : List Node → List Node
  | [] => []
  | n :: rest => convertTablesN n :: convertTablesL rest
end

/-- Heading tags, as in `find_all(['h1',...,'h6'])`. -/
def headingTags : List String := ["h1", "h2", "h3", "h4", "h5", "h6"]

/-- Per-heading id assignment of `_add_accessibility` (lines 210–212):
a heading whose `id` is missing or empty gets `heading-i`, where `i` is its
index (from `enumerate`) over all headings in document order. -/
def hFix (i : Nat) (a : Attrs) : Attrs :=
  if truthy (getAttr a "id") then a else setAttr a "id" ("heading-" ++ toString i)

mutual
/-- The heading loop of `_add_accessibility` threaded through one node:
`i` is the number of headings already seen in document order. -/
def headIdN (i : Nat) : Node → (Node × Nat)
  | .text s => (.text s, i)
  | .comment s => (.comment s, i)
  | .elem t a c =>
    if t ∈ headingTags then
      let r := headIdL (i + 1) c
      (.elem t (hFix i a) r.1, r.2)
    else
      let r := headIdL i c
      (.elem t a r.1, r.2)
/-- The heading loop over a forest. -/
def headIdL (i : Nat) : List Node → (List Node × Nat)
  | [] => ([], i)
  | n :: rest =>
    let r := headIdN i n
    let r2 := headIdL r.2 rest
    (r.1 :: r2.1, r2.2)
end

/-- Body landmark of `_add_accessibility` (lines 203–206): the first
`<body>` gets `role="main"` and `id="main-content"`. -/
def accessBodyAttr : Node → Node
  | .elem t a c => .elem t (setAttr (setAttr a "role" "main") "id" "main-content") c
  | other => other

mutual
/-- Image loop of `_add_accessibility` (lines 215–218): every `<img>`
without a truthy `alt` gets `alt="Image"`. -/
def imgAltN : Node → Node
  | .text s => .text s
  | .comment s => .comment s
  | .elem t a c =>
    let a2 := if t == "img" && !truthy (getAttr a "alt") then setAttr a "alt" "Image" else a
    .elem t a2 (imgAltL c)
def imgAltL : List Node → List Node
  | [] => []
  | n :: rest => imgAltN n :: imgAltL rest
end

mutual
/-- Link loop of `_add_accessibility` (lines 221–224): every `<a>` without
a truthy `tabindex` gets `tabindex="0"`. -/
def linkTabN : Node → Node
  | .text s => .text s
  | .comment s => .comment s
  | .elem t a c =>
    let a2 := if t == "a" && !truthy (getAttr a "tabindex") then setAttr a "tabindex" "0" else a
    .elem t a2 (linkTabL c)
def linkTabL : List Node → List Node
  | [] => []
  | n :: rest => linkTabN n :: linkTabL rest
end

/-- `HTMLConverter._add_accessibility` (lines 200–224): body landmark,
heading ids, image alt text, link tab stops, in source order. -/
def addAccessibility (doc : List Node) : List Node :=
  linkTabL (imgAltL
    (headIdL 0 ((updFirstL (fun n => n.tagOf == "body") accessBodyAttr doc).1)).1)

/-- Class append for bs4's multi-valued `class` attribute
(`tag.get('class', []) + [cls]`): modelled on the space-joined string. -/
def appendClass (a : Attrs) (cls : String) : Attrs :=
  match getAttr a "class" with
  | none => setAttr a "class" cls
  | some s => if s.isEmpty then setAttr a "class" cls else setAttr a "class" (s ++ " " ++ cls)

mutual
/-- `HTMLConverter._add_responsive_classes` (lines 226–244), fused over one
node: full-width tables gain `container`, class-less paragraphs gain
`responsive-text`, anchors with an `http`-prefixed href gain
`external-link`.  The three source loops touch disjoint tag sets, so the
fused rewrite equals running them in sequence. -/
def responsiveN : Node → Node
  | .text s => .text s
  | .comment s => .comment s
  | .elem t a c =>
    let a2 :=
      if t == "table" && (getAttr a "width" == some "100%") then appendClass a "container"
      else if t == "p" && !truthy (getAttr a "class") then setAttr a "class" "responsive-text"
      else if t == "a" && hasAttr a "href"
          && strStarts ((getAttr a "href").getD "") "http" then appendClass a "external-link"
      else a
    .elem t a2 (responsiveL c)
def responsiveL : List Node → List Node
  | [] => []
  | n :: rest => responsiveN n :: responsiveL rest
end

/-- The site origin of `_update_links` (line 251). -/
def siteOrigin : String := "http://www.bibletexts.com/"

/-- Per-anchor attribute rewrite of `_update_links` (lines 249–258):
an href starting with the site origin is rewritten with
`href.replace(origin, '')` (Python `replace` removes every occurrence);
otherwise an href starting with `http://` marks the anchor
`target="_blank"`, `rel="noopener noreferrer"`; all other hrefs (https,
fragment-only, relative) leave the anchor untouched. -/
def updateLinkAttrs (a : Attrs) : Attrs :=
  match getAttr a "href" with
  | none => a
  | some h =>
    if strStarts h siteOrigin then
      setAttr a "href" (pyReplace h siteOrigin "")
    else if strStarts h "http://" then
      setAttr (setAttr a "target" "_blank") "rel" "noopener noreferrer"
    else a

mutual
/-- `HTMLConverter._update_links` (lines 246–258) over one node: the
`find_all('a', href=True)` loop applied in place; only attribute maps of
anchors carrying an href change. -/
def updateLinksN : Node → Node
  | .text s => .text s
  | .comment s => .comment s
  | .elem t a c =>
    let a2 := if t == "a" && hasAttr a "href" then updateLinkAttrs a else a
    .elem t a2 (updateLinksL c)
def updateLinksL : List Node → List Node
  | [] => []
  | n :: rest => updateLinksN n :: updateLinksL rest
end

/-- `HTMLConverter.convert_file`, the in-memory part (lines 50–65): the six
passes in source order. -/
def convertFileDoc (doc : List Node) : List Node :=
  updateLinksL (responsiveL (addAccessibility
    (convertTablesL (addModernStructure (convertToHtml5 doc)))))

/-! ### C4: the doctype marker -/

/-- A minimal non-empty legacy document. -/
def exParagraphDoc : List Node := [.elem "p" [] [.text "x"]]

/-- C4, evaluation at the failing input.  `_convert_to_html5` inserts
`Comment('DOCTYPE html')` at position 0 of the soup (line 94), but
`soup.clear()` (line 110) then discards every node still attached to the
soup — the comment included — before the rebuilt `<html>` skeleton is
appended.  For the document `<p>x</p>` the full pipeline output contains no
comment node at all, and its first (only) top-level node is the `<html>`
element, so no doctype marker is first in the serialized output. -/
theorem claimC4_code_eval :
    hasCommentL (convertFileDoc exParagraphDoc) = false
    ∧ (convertFileDoc exParagraphDoc).map Node.tagOf = ["html"] := by decide

/-! ### Attribute-map lemmas -/

theorem getAttr_setAttr_same (a : Attrs) (k v : String) :
    getAttr (setAttr a k v) k = some v := by
  induction a with
  | nil => simp [setAttr, getAttr, List.find?]
  | cons p rest ih =>
    by_cases h : p.1 == k
    · simp [setAttr, h, getAttr, List.find?]
    · simp only [setAttr, h, Bool.false_eq_true, if_neg]
      simpa [getAttr, List.find?, h] using ih

theorem getAttr_setAttr_other (a : Attrs) (k v k2 : String) (h : (k2 == k) = false) :
    getAttr (setAttr a k v) k2 = getAttr a k2 := by
  induction a with
  | nil =>
    simp only [setAttr, getAttr, List.find?]
    have : (k == k2) = false := by
      cases e : k == k2
      · rfl
      · exact absurd ((beq_iff_eq.mp e).symm) (by simpa using h)
    simp [this]
  | cons p rest ih =>
    by_cases hp : p.1 == k
    · have hpk : p.1 = k := beq_iff_eq.mp hp
      have : (k == k2) = false := by
        cases e : k == k2
        · rfl
        · exact absurd ((beq_iff_eq.mp e).symm) (by simpa using h)
      simp [setAttr, hp, getAttr, List.find?, this, hpk]
    · simp only [setAttr, hp, Bool.false_eq_true, if_neg]
      by_cases hq : p.1 == k2
      · simp [getAttr, List.find?, hq]
      · simpa [getAttr, List.find?, hq] using ih

/-! ### C3: link rewriting -/

/-- C3, counterexample.  The claim says an href beginning with the site
origin is rewritten to "the remainder of the URL after that prefix".
Python `str.replace` removes every occurrence of the origin, not only the
leading one: for an href containing the origin twice the code produces
`a/b`, while the remainder after the prefix is
`a/http://www.bibletexts.com/b`. -/
theorem claimC3_counterexample :
    getAttr (updateLinkAttrs
        [("href", "http://www.bibletexts.com/a/http://www.bibletexts.com/b")]) "href"
      = some "a/b"
    ∧ siteOrigin ++ "a/http://www.bibletexts.com/b"
        = "http://www.bibletexts.com/a/http://www.bibletexts.com/b"
    ∧ "a/b" ≠ "a/http://www.bibletexts.com/b" := by decide

theorem strStarts_origin_http (h : String) (hs : strStarts h siteOrigin = true) :
    strStarts h "http://" = true := by
  have h1 : siteOrigin.data <+: h.data := List.isPrefixOf_iff_prefix.mp hs
  have h2 : "http://".data <+: siteOrigin.data := by decide
  exact List.isPrefixOf_iff_prefix.mpr (h2.trans h1)

/-- C3, amended.  For every anchor with an href attribute: an href
beginning with the site origin is rewritten by deleting every occurrence of
the origin from it (Python `replace`; for hrefs containing the origin only
once this is precisely the remainder after the prefix); any other href
beginning with `http://` leaves the href unchanged and gains
`target="_blank"` and `rel="noopener noreferrer"`; any href not beginning
with `http://` — fragment-only, relative, or https — leaves the anchor's
attributes completely unchanged. -/
theorem claimC3_theorem (a : Attrs) (h : String) (hh : getAttr a "href" = some h) :
    (strStarts h siteOrigin = true →
      getAttr (updateLinkAttrs a) "href" = some (pyReplace h siteOrigin ""))
    ∧ (strStarts h siteOrigin = false → strStarts h "http://" = true →
      getAttr (updateLinkAttrs a) "href" = some h
      ∧ getAttr (updateLinkAttrs a) "target" = some "_blank"
      ∧ getAttr (updateLinkAttrs a) "rel" = some "noopener noreferrer")
    ∧ (strStarts h "http://" = false → updateLinkAttrs a = a) := by
  refine ⟨?_, ?_, ?_⟩
  · intro h1
    simp only [updateLinkAttrs, hh, h1, if_pos]
    exact getAttr_setAttr_same a "href" (pyReplace h siteOrigin "")
  · intro h1 h2
    simp only [updateLinkAttrs, hh, h1, Bool.false_eq_true, if_neg, h2, if_pos, if_false]
    refine ⟨?_, ?_, ?_⟩
    · rw [getAttr_setAttr_other _ _ _ _ (by decide), getAttr_setAttr_other _ _ _ _ (by decide)]
      exact hh
    · rw [getAttr_setAttr_other _ _ _ _ (by decide)]
      exact getAttr_setAttr_same a "target" "_blank"
    · exact getAttr_setAttr_same _ "rel" "noopener noreferrer"
  · intro h2
    have h1 : strStarts h siteOrigin = false := by
      cases e : strStarts h siteOrigin
      · rfl
      · exact absurd (strStarts_origin_http h e) (by simp [h2])
    simp [updateLinkAttrs, hh, h1, h2]

/-- C3, witness: the two end-to-end anchors of the spec's scenario C plus a
fragment-only anchor, all via `claimC3_theorem`. -/
theorem claimC3_witness :
    getAttr (updateLinkAttrs [("href", "http://www.bibletexts.com/topical.html")]) "href"
      = some "topical.html"
    ∧ getAttr (updateLinkAttrs [("href", "http://example.com")]) "target" = some "_blank"
    ∧ getAttr (updateLinkAttrs [("href", "http://example.com")]) "rel"
      = some "noopener noreferrer"
    ∧ updateLinkAttrs [("href", "#main")] = [("href", "#main")] := by
  have t1 := (claimC3_theorem [("href", "http://www.bibletexts.com/topical.html")]
    "http://www.bibletexts.com/topical.html" (by decide)).1 (by decide)
  have t2 := (claimC3_theorem [("href", "http://example.com")]
    "http://example.com" (by decide)).2.1 (by decide) (by decide)
  have t3 := (claimC3_theorem [("href", "#main")] "#main" (by decide)).2.2 (by decide)
  refine ⟨?_, t2.2.1, t2.2.2, t3⟩
  rw [t1]
  decide

/-! ### C2: layout-table conversion -/

/-- Table-machinery tags: nesting any of these inside a converted cell is
what makes the Python in-place loop diverge from a per-table reading. -/
def tabooTag (t : String) : Bool :=
  t == "table" || t == "tr" || t == "td" || t == "th"

mutual
/-- No table-machinery element anywhere in the subtree. -/
def cleanN : Node → Bool
  | .text _ => true
  | .comment _ => true
  | .elem t _ c => !tabooTag t && cleanL c
/-- No table-machinery element anywhere in the forest. -/
def cleanL : List Node → Bool
  | [] => true
  | n :: rest => cleanN n && cleanL rest
end

/-- `td` or `th`. -/
def isCellTag (t : String) : Bool := t == "td" || t == "th"

/-- A string or comment node. -/
def isTextish : Node → Bool
  | .text _ => true
  | .comment _ => true
  | .elem _ _ _ => false

/-- A well-formed cell: a `td`/`th` whose contents are free of nested
table machinery. -/
def cellWF : Node → Bool
  | .elem t _ c => isCellTag t && cleanL c
  | _ => false

/-- A well-formed row: a `tr` whose children are well-formed cells or
strings. -/
def rowWF : Node → Bool
  | .elem t _ c => t == "tr" && c.all (fun m => cellWF m || isTextish m)
  | _ => false

/-- A well-formed table body: rows and strings only. -/
def tableWF (c : List Node) : Bool := c.all (fun m => rowWF m || isTextish m)

/-- The direct `tr` children of a table body. -/
def directRows (c : List Node) : List Node := c.filter (fun n => n.tagOf == "tr")

/-- The direct cell children of a row. -/
def directCells (r : Node) : List Node :=
  r.childrenOf.filter (fun n => isCellTag n.tagOf)

/-- One grid item of the ≥3-cell (or 0-cell) branch (lines 191–194). -/
def gridItem (cell : Node) : Node := .elem "div" [("class", "grid-item")] cell.childrenOf

mutual
theorem findTagsN_taboo_nil : ∀ (ts : List String), ts.all tabooTag = true →
    ∀ n, cleanN n = true → findTagsN ts n = []
  | ts, hts, .text _, _ => rfl
  | ts, hts, .comment _, _ => rfl
  | ts, hts, .elem t a c, hc => by
    simp only [cleanN, Bool.and_eq_true, Bool.not_eq_eq_eq_not, Bool.not_true] at hc
    have hnotmem : t ∉ ts := by
      intro hmem
      have := List.all_eq_true.mp hts t hmem
      rw [hc.1] at this
      cases this
    simp [findTagsN, hnotmem, findTagsL_taboo_nil ts hts c hc.2]
theorem findTagsL_taboo_nil : ∀ (ts : List String), ts.all tabooTag = true →
    ∀ ds, cleanL ds = true → findTagsL ts ds = []
  | ts, hts, [], _ => rfl
  | ts, hts, n :: rest, hc => by
    simp only [cleanL, Bool.and_eq_true] at hc
    simp [findTagsL, findTagsN_taboo_nil ts hts n hc.1,
      findTagsL_taboo_nil ts hts rest hc.2]
end

theorem cells_findTr_nil (cc : List Node)
    (h : cc.all (fun m => cellWF m || isTextish m) = true) :
    findTagsL ["tr"] cc = [] := by
  induction cc with
  | nil => rfl
  | cons m rest ih =>
    simp only [List.all_cons, Bool.and_eq_true, Bool.or_eq_true] at h
    have hrest := ih h.2
    cases m with
    | text s => simpa [findTagsL, findTagsN] using hrest
    | comment s => simpa [findTagsL, findTagsN] using hrest
    | elem t a c =>
      have hcell : cellWF (.elem t a c) = true := by
        rcases h.1 with hm | hm
        · exact hm
        · simp [isTextish] at hm
      simp only [cellWF, Bool.and_eq_true] at hcell
      have hmem : t ∉ ["tr"] := by
        intro hmem
        have ht : t = "tr" := by simpa using hmem
        subst ht
        simp [isCellTag] at hcell
      have hne : ¬t = "tr" := by simpa using hmem
      simp [findTagsL, findTagsN, hne,
        findTagsL_taboo_nil ["tr"] (by decide) c hcell.2, hrest]

theorem rows_eq_direct (c : List Node) (h : tableWF c = true) :
    findTagsL ["tr"] c = directRows c := by
  induction c with
  | nil => rfl
  | cons m rest ih =>
    simp only [tableWF, List.all_cons, Bool.and_eq_true, Bool.or_eq_true] at h
    have hrest := ih h.2
    cases m with
    | text s => simpa [findTagsL, findTagsN, directRows, Node.tagOf] using hrest
    | comment s => simpa [findTagsL, findTagsN, directRows, Node.tagOf] using hrest
    | elem t a cc =>
      have hrow : rowWF (.elem t a cc) = true := by
        rcases h.1 with hm | hm
        · exact hm
        · simp [isTextish] at hm
      simp only [rowWF, Bool.and_eq_true] at hrow
      have ht : t = "tr" := by simpa using hrow.1
      subst ht
      simp [findTagsL, findTagsN, directRows, Node.tagOf,
        cells_findTr_nil cc hrow.2, hrest]

theorem cells_eq_direct_list (cc : List Node)
    (h : cc.all (fun m => cellWF m || isTextish m) = true) :
    findTagsL ["td", "th"] cc = cc.filter (fun n => isCellTag n.tagOf) := by
  induction cc with
  | nil => rfl
  | cons m rest ih =>
    simp only [List.all_cons, Bool.and_eq_true, Bool.or_eq_true] at h
    have hrest := ih h.2
    cases m with
    | text s => simpa [findTagsL, findTagsN, Node.tagOf, isCellTag] using hrest
    | comment s => simpa [findTagsL, findTagsN, Node.tagOf, isCellTag] using hrest
    | elem t2 a2 c2 =>
      have hcell : cellWF (.elem t2 a2 c2) = true := by
        rcases h.1 with hm | hm
        · exact hm
        · simp [isTextish] at hm
      simp only [cellWF, Bool.and_eq_true] at hcell
      have hmem : t2 ∈ ["td", "th"] := by
        have h3 := hcell.1
        simp only [isCellTag, Bool.or_eq_true, beq_iff_eq] at h3
        rcases h3 with h3 | h3 <;> simp [h3]
      simp [findTagsL, findTagsN, hmem, Node.tagOf, hcell.1,
        findTagsL_taboo_nil ["td", "th"] (by decide) c2 hcell.2, hrest]

theorem cells_eq_direct (r : Node) (h : rowWF r = true) :
    findTagsL ["td", "th"] r.childrenOf = directCells r := by
  cases r with
  | text s => simp [rowWF] at h
  | comment s => simp [rowWF] at h
  | elem t a cc =>
    simp only [rowWF, Bool.and_eq_true] at h
    simp only [Node.childrenOf, directCells]
    exact cells_eq_direct_list cc h.2

mutual
theorem convertTablesN_clean : ∀ n, cleanN n = true → convertTablesN n = n
  | .text _, _ => rfl
  | .comment _, _ => rfl
  | .elem t a c, hc => by
    simp only [cleanN, Bool.and_eq_true, Bool.not_eq_eq_eq_not, Bool.not_true] at hc
    have ht : (t == "table") = false := by
      cases e : t == "table"
      · rfl
      · have : t = "table" := by simpa using e
        subst this
        simp [tabooTag] at hc
    simp [convertTablesN, ht, convertTablesL_clean c hc.2]
theorem convertTablesL_clean : ∀ ds, cleanL ds = true → convertTablesL ds = ds
  | [], _ => rfl
  | n :: rest, hc => by
    simp only [cleanL, Bool.and_eq_true] at hc
    simp [convertTablesL, convertTablesN_clean n hc.1, convertTablesL_clean rest hc.2]
end

theorem convertTablesL_cells (cc : List Node)
    (h : cc.all (fun m => cellWF m || isTextish m) = true) :
    convertTablesL cc = cc := by
  induction cc with
  | nil => rfl
  | cons m rest ih =>
    simp only [List.all_cons, Bool.and_eq_true, Bool.or_eq_true] at h
    have hrest := ih h.2
    cases m with
    | text s => simpa [convertTablesL, convertTablesN] using hrest
    | comment s => simpa [convertTablesL, convertTablesN] using hrest
    | elem t a c =>
      have hcell : cellWF (.elem t a c) = true := by
        rcases h.1 with hm | hm
        · exact hm
        · simp [isTextish] at hm
      simp only [cellWF, Bool.and_eq_true] at hcell
      have ht : (t == "table") = false := by
        cases e : t == "table"
        · rfl
        · have h4 : t = "table" := by simpa using e
          subst h4
          simp [isCellTag] at hcell
      simp [convertTablesL, convertTablesN, ht,
        convertTablesL_clean c hcell.2, hrest]

theorem convertTablesL_wf (c : List Node) (h : tableWF c = true) :
    convertTablesL c = c := by
  induction c with
  | nil => rfl
  | cons m rest ih =>
    simp only [tableWF, List.all_cons, Bool.and_eq_true, Bool.or_eq_true] at h
    have hrest := ih h.2
    cases m with
    | text s => simpa [convertTablesL, convertTablesN] using hrest
    | comment s => simpa [convertTablesL, convertTablesN] using hrest
    | elem t a cc =>
      have hrow : rowWF (.elem t a cc) = true := by
        rcases h.1 with hm | hm
        · exact hm
        · simp [isTextish] at hm
      simp only [rowWF, Bool.and_eq_true] at hrow
      have ht : t = "tr" := by simpa using hrow.1
      subst ht
      simp [convertTablesL, convertTablesN, convertTablesL_cells cc hrow.2, hrest]

/-- A table carrying an (empty-valued) `cellpadding` attribute. -/
def exPadTable : Node :=
  .elem "table" [("cellpadding", "")] [.elem "tr" [] [.elem "td" [] [.text "A"]]]

/-- C2, counterexample.  The claim converts every table that "has a
cellpadding attribute".  The code tests `table.get('cellpadding')` for
Python truthiness, so a table with `cellpadding=""` — the attribute is
present — is left entirely unchanged, still a `<table>`. -/
theorem claimC2_counterexample :
    convertTablesN exPadTable = exPadTable
    ∧ hasAttr exPadTable.attrsOf "cellpadding" = true
    ∧ exPadTable.tagOf = "table" := by decide

/-- C2, amended.  For a table whose body is well formed (direct `tr` rows
holding direct `td`/`th` cells, no table machinery nested inside a cell —
for nested tables the in-place loop shares cell contents between the outer
and inner conversion and the per-table description fails): if the table has
`width="100%"`, or a cellpadding attribute with a non-empty value, or a
cellspacing attribute with a non-empty value, or a bgcolor attribute with
any value, it is replaced by a `<div class="modern-layout">` holding the
image of its rows, where a row with exactly 1 cell becomes a `<section>`
carrying that cell's children, a row with exactly 2 cells becomes a
two-column wrapper with one child div per cell, and a row with any other
cell count (including zero) becomes a grid wrapper with one child div per
cell, in row and cell order; a table with none of those signals is left
unchanged. -/
theorem claimC2_theorem (a : Attrs) (c : List Node) (hwf : tableWF c = true) :
    (layoutSignal a = true →
      convertTablesN (.elem "table" a c)
        = .elem "div" [("class", "modern-layout")] ((directRows c).map rowToSection)
      ∧ ∀ r ∈ directRows c,
          (∀ c1, directCells r = [c1] →
            rowToSection r = .elem "section" [("class", "content-section")] c1.childrenOf)
          ∧ (∀ c1 c2, directCells r = [c1, c2] →
            rowToSection r = .elem "div" [("class", "two-column-layout")]
              [.elem "div" [("class", "column column-1")] c1.childrenOf,
               .elem "div" [("class", "column column-2")] c2.childrenOf])
          ∧ ((directCells r).length ≠ 1 → (directCells r).length ≠ 2 →
            rowToSection r = .elem "div" [("class", "grid-layout")]
              ((directCells r).map gridItem)))
    ∧ (layoutSignal a = false → convertTablesN (.elem "table" a c) = .elem "table" a c) := by
  constructor
  · intro hsig
    constructor
    · simp [convertTablesN, hsig, rows_eq_direct c hwf]
    · intro r hr
      rw [directRows] at hr
      have hmf := List.mem_filter.mp hr
      have hrow : rowWF r = true := by
        have hall := List.all_eq_true.mp hwf r hmf.1
        rcases Bool.or_eq_true_iff.mp hall with h | h
        · exact h
        · cases r with
          | text s => exact absurd hmf.2 (by simp [Node.tagOf])
          | comment s => exact absurd hmf.2 (by simp [Node.tagOf])
          | elem t a cc => simp [isTextish] at h
      have hcells : findTagsL ["td", "th"] r.childrenOf = directCells r :=
        cells_eq_direct r hrow
      refine ⟨?_, ?_, ?_⟩
      · intro c1 h1
        simp [rowToSection, hcells, h1]
      · intro c1 c2 h2
        simp [rowToSection, hcells, h2]
      · intro hn1 hn2
        match hc : directCells r with
        | [] => simp [rowToSection, hcells, hc, gridItem]
        | [c1] => exact absurd (show (directCells r).length = 1 by simp [hc]) hn1
        | [c1, c2] => exact absurd (show (directCells r).length = 2 by simp [hc]) hn2
        | c1 :: c2 :: c3 :: cs => simp [rowToSection, hcells, hc, gridItem]
  · intro hsig
    simp [convertTablesN, hsig, convertTablesL_wf c hwf]

/-- C2, witness: the spec's end-to-end scenario A, via `claimC2_theorem`:
`<table width="100%"><tr><td>A</td></tr><tr><td>B</td><td>C</td></tr></table>`
becomes one content section holding "A" followed by one two-column wrapper
holding "B" and "C". -/
theorem claimC2_witness :
    convertTablesN (.elem "table" [("width", "100%")]
        [.elem "tr" [] [.elem "td" [] [.text "A"]],
         .elem "tr" [] [.elem "td" [] [.text "B"], .elem "td" [] [.text "C"]]])
      = .elem "div" [("class", "modern-layout")]
          [.elem "section" [("class", "content-section")] [.text "A"],
           .elem "div" [("class", "two-column-layout")]
             [.elem "div" [("class", "column column-1")] [.text "B"],
              .elem "div" [("class", "column column-2")] [.text "C"]]] := by
  have h := ((claimC2_theorem [("width", "100%")]
    [.elem "tr" [] [.elem "td" [] [.text "A"]],
     .elem "tr" [] [.elem "td" [] [.text "B"], .elem "td" [] [.text "C"]]]
    (by decide)).1 (by decide)).1
  rw [h]
  decide

/-! ### C5: heading ids in the accessibility pass -/

mutual
/-- The attribute maps of the headings of a subtree, document order
(what `find_all(['h1',...,'h6'])` enumerates, reduced to the data the
heading loop reads and writes). -/
def headAttrsN : Node → List Attrs
  | .text _ => []
  | .comment _ => []
  | .elem t a c => (if t ∈ headingTags then [a] else []) ++ headAttrsL c
/-- Heading attribute maps of a forest, document order. -/
def headAttrsL : List Node → List Attrs
  | [] => []
  | n :: rest => headAttrsN n ++ headAttrsL rest
end

/-- The heading loop of lines 210–212 as a function on the heading
attribute sequence: the heading at overall index `i` receives `hFix i`. -/
def assignIds : Nat → List Attrs → List Attrs
  | _, [] => []
  | i, a :: rest => hFix i a :: assignIds (i + 1) rest

theorem assignIds_append (i : Nat) (xs ys : List Attrs) :
    assignIds i (xs ++ ys) = assignIds i xs ++ assignIds (i + xs.length) ys := by
  induction xs generalizing i with
  | nil => simp [assignIds]
  | cons a xs ih =>
    have h : i + 1 + xs.length = i + (xs.length + 1) := by omega
    calc assignIds i ((a :: xs) ++ ys)
        = hFix i a :: assignIds (i + 1) (xs ++ ys) := rfl
      _ = hFix i a :: (assignIds (i + 1) xs ++ assignIds (i + 1 + xs.length) ys) := by
          rw [ih (i + 1)]
      _ = (hFix i a :: assignIds (i + 1) xs) ++ assignIds (i + (xs.length + 1)) ys := by
          rw [h, List.cons_append]
      _ = assignIds i (a :: xs) ++ assignIds (i + (a :: xs).length) ys := rfl

theorem heading_id_isEmpty_false (s : String) : ("heading-" ++ s).isEmpty = false := by
  cases e : ("heading-" ++ s).isEmpty
  · rfl
  · have h1 : "heading-" ++ s = "" := (String.isEmpty_iff _).mp e
    have h2 : ("heading-" ++ s).data = ([] : List Char) := by rw [h1]
    have h3 : ("heading-" ++ s).data = "heading-".data ++ s.data := rfl
    rw [h3] at h2
    exact absurd h2 (by simp)

theorem assignIds_truthy (i : Nat) (l : List Attrs) :
    (assignIds i l).all (fun a => truthy (getAttr a "id")) = true := by
  induction l generalizing i with
  | nil => rfl
  | cons a rest ih =>
    simp only [assignIds, List.all_cons, Bool.and_eq_true]
    refine ⟨?_, ih (i + 1)⟩
    by_cases h : truthy (getAttr a "id") = true
    · simp [hFix, h]
    · have h2 : truthy (getAttr a "id") = false := by
        cases e : truthy (getAttr a "id")
        · rfl
        · exact absurd e h
      unfold hFix
      rw [if_neg (by simp [h2]), getAttr_setAttr_same]
      simp [truthy, heading_id_isEmpty_false]

mutual
theorem updBodyAcc_headN : ∀ n : Node,
    headAttrsN (updFirstN (fun m => m.tagOf == "body") accessBodyAttr n).1 = headAttrsN n
  | .text s => by simp [updFirstN, Node.tagOf, headAttrsN]
  | .comment s => by simp [updFirstN, Node.tagOf, headAttrsN]
  | .elem t a c => by
    by_cases hp : (Node.tagOf (.elem t a c) == "body") = true
    · have ht : t = "body" := by simpa [Node.tagOf] using hp
      subst ht
      have hnh : "body" ∉ headingTags := by decide
      simp [updFirstN, Node.tagOf, accessBodyAttr, headAttrsN, hnh]
    · simp only [updFirstN, hp, Bool.false_eq_true, if_neg]
      simp [headAttrsN, updBodyAcc_headL c]
theorem updBodyAcc_headL : ∀ ds : List Node,
    headAttrsL (updFirstL (fun m => m.tagOf == "body") accessBodyAttr ds).1 = headAttrsL ds
  | [] => rfl
  | n :: rest => by
    by_cases hf : (updFirstN (fun m => m.tagOf == "body") accessBodyAttr n).2 = true
    · simp only [updFirstL, hf, if_pos]
      simp [headAttrsL, updBodyAcc_headN n]
    · simp only [updFirstL, hf, Bool.false_eq_true, if_neg]
      simp [headAttrsL, updBodyAcc_headN n, updBodyAcc_headL rest]
end

mutual
theorem imgAlt_headN : ∀ n : Node, headAttrsN (imgAltN n) = headAttrsN n
  | .text _ => rfl
  | .comment _ => rfl
  | .elem t a c => by
    by_cases h : t ∈ headingTags
    · have hi : (t == "img") = false := by
        cases e : t == "img"
        · rfl
        · have ht : t = "img" := by simpa using e
          subst ht
          exact absurd h (by decide)
      simp [imgAltN, headAttrsN, h, hi, imgAlt_headL c]
    · simp [imgAltN, headAttrsN, h, imgAlt_headL c]
theorem imgAlt_headL : ∀ ds : List Node, headAttrsL (imgAltL ds) = headAttrsL ds
  | [] => rfl
  | n :: rest => by simp [imgAltL, headAttrsL, imgAlt_headN n, imgAlt_headL rest]
end

mutual
theorem linkTab_headN : ∀ n : Node, headAttrsN (linkTabN n) = headAttrsN n
  | .text _ => rfl
  | .comment _ => rfl
  | .elem t a c => by
    by_cases h : t ∈ headingTags
    · have hi : (t == "a") = false := by
        cases e : t == "a"
        · rfl
        · have ht : t = "a" := by simpa using e
          subst ht
          exact absurd h (by decide)
      simp [linkTabN, headAttrsN, h, hi, linkTab_headL c]
    · simp [linkTabN, headAttrsN, h, linkTab_headL c]
theorem linkTab_headL : ∀ ds : List Node, headAttrsL (linkTabL ds) = headAttrsL ds
  | [] => rfl
  | n :: rest => by simp [linkTabL, headAttrsL, linkTab_headN n, linkTab_headL rest]
end

mutual
theorem headIdN_attrs : ∀ (i : Nat) (n : Node),
    headAttrsN (headIdN i n).1 = assignIds i (headAttrsN n)
    ∧ (headIdN i n).2 = i + (headAttrsN n).length
  | i, .text _ => by simp [headIdN, headAttrsN, assignIds]
  | i, .comment _ => by simp [headIdN, headAttrsN, assignIds]
  | i, .elem t a c => by
    by_cases h : t ∈ headingTags
    · have ih := headIdL_attrs (i + 1) c
      constructor
      · simp only [headIdN, if_pos h, headAttrsN, ih.1, assignIds,
          List.singleton_append, List.cons_append, List.nil_append]
      · simp only [headIdN, if_pos h, headAttrsN, ih.2,
          List.singleton_append, List.length_cons]
        omega
    · have ih := headIdL_attrs i c
      constructor
      · simp only [headIdN, if_neg h, headAttrsN, ih.1, List.nil_append]
      · simp only [headIdN, if_neg h, headAttrsN, ih.2, List.nil_append]
theorem headIdL_attrs : ∀ (i : Nat) (ds : List Node),
    headAttrsL (headIdL i ds).1 = assignIds i (headAttrsL ds)
    ∧ (headIdL i ds).2 = i + (headAttrsL ds).length
  | i, [] => by simp [headIdL, headAttrsL, assignIds]
  | i, n :: rest => by
    have ihn := headIdN_attrs i n
    have ihr := headIdL_attrs (headIdN i n).2 rest
    constructor
    · show headAttrsN (headIdN i n).1 ++ headAttrsL (headIdL (headIdN i n).2 rest).1
        = assignIds i (headAttrsN n ++ headAttrsL rest)
      rw [ihn.1, ihr.1, ihn.2, assignIds_append]
    · show (headIdL (headIdN i n).2 rest).2 = i + (headAttrsN n ++ headAttrsL rest).length
      rw [ihr.2, ihn.2, List.length_append]
      omega
end

/-- C5.  After `_add_accessibility` the heading attribute sequence of the
document (over all `h1`–`h6` elements, document order) is exactly
`assignIds 0` of the input's heading attribute sequence — the heading at
overall index `i` keeps its `id` when one is present and non-empty and
otherwise receives `id="heading-i"` — and consequently every heading of the
output carries a non-empty `id` attribute.  (The body/image/anchor parts of
the pass touch no heading's attributes.) -/
theorem claimC5_theorem (doc : List Node) :
    headAttrsL (addAccessibility doc) = assignIds 0 (headAttrsL doc)
    ∧ (headAttrsL (addAccessibility doc)).all
        (fun a => truthy (getAttr a "id")) = true := by
  have h1 : headAttrsL (addAccessibility doc) = assignIds 0 (headAttrsL doc) := by
    unfold addAccessibility
    rw [linkTab_headL, imgAlt_headL, (headIdL_attrs 0 _).1, updBodyAcc_headL]
  exact ⟨h1, by rw [h1]; exact assignIds_truthy 0 _⟩

/-! ### The search indexer (`build_search_index.py`) -/

/-- Python `s.lower()` (the indexed vocabulary is ASCII). -/
def lowerStr (s : String) : String := String.mk (s.data.map Char.toLower)

/-- Python `s.strip()`. -/
def pyStrip (s : String) : String :=
  String.mk (((s.data.dropWhile Char.isWhitespace).reverse.dropWhile Char.isWhitespace).reverse)

/-- Whitespace-separated tokens of a character list (`cur` holds the
current token reversed). -/
def wsTokensAux (cur : List Char) : List Char → List (List Char)
  | [] => if cur.isEmpty then [] else [cur.reverse]
  | c :: rest =>
    if c.isWhitespace then
      if cur.isEmpty then wsTokensAux [] rest else cur.reverse :: wsTokensAux [] rest
    else wsTokensAux (c :: cur) rest

/-- `re.sub(r'\s+', ' ', text).strip()` (line 93): every whitespace run
becomes one space, ends trimmed. -/
def collapseWs (s : String) : String :=
  String.mk (List.intercalate [' '] (wsTokensAux [] s.data))

/-- Python `pat in hay` substring containment. -/
def containsSub (pat : List Char) : List Char → Bool
  | [] => pat.isEmpty
  | c :: rest => pat.isPrefixOf (c :: rest) || containsSub pat rest

/-- Python `s.split(',')` (`cur` holds the current piece reversed):
pieces are kept verbatim, empties included. -/
def splitCommaAux (cur : List Char) : List Char → List String
  | [] => [String.mk cur.reverse]
  | c :: rest =>
    if c == ',' then String.mk cur.reverse :: splitCommaAux [] rest
    else splitCommaAux (c :: cur) rest

/-- Python `s.split(',')`. -/
def pySplitComma (s : String) : List String := splitCommaAux [] s.data

mutual
/-- `tag.get_text()`: concatenation of the text strings of the subtree
(comments are not part of `get_text` with the html.parser builder). -/
def textOfN : Node → String
  | .text s => s
  | .comment _ => ""
  | .elem _ _ c => textOfL c
/-- `get_text` over a forest. -/
def textOfL : List Node → String
  | [] => ""
  | n :: rest => textOfN n ++ textOfL rest
end

mutual
/-- The `script.decompose()` loop of `_extract_content` (lines 86–87):
every `<script>`/`<style>` subtree is removed from the soup.  This mutation
is visible to every extractor that runs after `_extract_content`. -/
def removeScriptStyleN : Node → Option Node
  | .text s => some (.text s)
  | .comment s => some (.comment s)
  | .elem t a c =>
    if t == "script" || t == "style" then none
    else some (.elem t a (removeScriptStyleL c))
/-- Script/style removal over a forest. -/
def removeScriptStyleL : List Node → List Node
  | [] => []
  | n :: rest =>
    match removeScriptStyleN n with
    | some m => m :: removeScriptStyleL rest
    | none => removeScriptStyleL rest
end

mutual
/-- `soup.find_all(p)` for a general node predicate, document order. -/
def findNodesN (p : Node → Bool) : Node → List Node
  | .text _ => []
  | .comment _ => []
  | .elem t a c =>
    (if p (.elem t a c) then [Node.elem t a c] else []) ++ findNodesL p c
/-- `soup.find_all(p)` over a forest. -/
def findNodesL (p : Node → Bool) : List Node → List Node
  | [] => []
  | n :: rest => findNodesN p n ++ findNodesL p rest
end

/-- `SearchIndexBuilder._extract_title` (lines 65–76): text of the first
`<title>`, else text of the first `<h1>`, else `"Untitled"`; stripped. -/
def extractTitle (doc : List Node) : String :=
  match (findTagsL ["title"] doc).head? with
  | some tnode => pyStrip (textOfN tnode)
  | none =>
    match (findTagsL ["h1"] doc).head? with
    | some h1 => pyStrip (textOfN h1)
    | none => "Untitled"

/-- `int(heading.name[1])` for the six heading tags. -/
def headingLevel (t : String) : Nat :=
  if t == "h1" then 1 else if t == "h2" then 2 else if t == "h3" then 3
  else if t == "h4" then 4 else if t == "h5" then 5 else if t == "h6" then 6 else 0

/-- `SearchIndexBuilder._extract_headings` (lines 97–106): every heading in
document order as (level, stripped text, `id` attribute or `""`). -/
def extractHeadings (doc : List Node) : List (Nat × String × String) :=
  (findTagsL headingTags doc).map
    (fun h => (headingLevel h.tagOf, pyStrip (textOfN h), (getAttr h.attrsOf "id").getD ""))

/-- `find_all('a', href=True)`: anchors carrying an href attribute. -/
def isAnchorHref (n : Node) : Bool := n.tagOf == "a" && hasAttr n.attrsOf "href"

/-- `SearchIndexBuilder._extract_links` (lines 108–118): the `find_all`
loop appends (raw href, stripped anchor text) for every anchor whose href
starts with neither `'http'` nor `'#'`. -/
def extractLinks (doc : List Node) : List (String × String) :=
  (findNodesL isAnchorHref doc).foldr
    (fun n acc =>
      match getAttr n.attrsOf "href" with
      | some h =>
        if !strStarts h "http" && !strStarts h "#" then (h, pyStrip (textOfN n)) :: acc
        else acc
      | none => acc) []

/-- The fixed Bible-study vocabulary of `_extract_keywords`
(lines 131–135). -/
def bibleTerms : List String :=
  ["bible", "scripture", "gospel", "testament", "christian", "jesus", "christ",
   "god", "lord", "prayer", "faith", "salvation", "grace", "love", "peace",
   "forgiveness", "repentance", "baptism", "communion", "church", "worship"]

/-- `soup.find('meta', attrs={'name': 'keywords'})` and the comma split of
its `content` (lines 125–127); `[]` when the tag is absent. -/
def metaKeywordTokens (doc : List Node) : List String :=
  match (findNodesL
      (fun n => n.tagOf == "meta" && (getAttr n.attrsOf "name" == some "keywords"))
      doc).head? with
  | some m => pySplitComma ((getAttr m.attrsOf "content").getD "")
  | none => []

/-- Deduplication with a seen-accumulator, keeping first occurrences. -/
def dedupAux : List String → List String → List String
  | [], _ => []
  | x :: xs, seen =>
    if x ∈ seen then dedupAux xs seen else x :: dedupAux xs (x :: seen)

/-- `list(set(keywords))` (line 141).  Python's set iteration order is
unspecified (hash-dependent across processes); the spec's data model treats
`keywords` as a set, and this deterministic first-occurrence dedup realises
it — every claim uses `keywords` only up to membership. -/
def pyDedup (l : List String) : List String := dedupAux l []

/-- `SearchIndexBuilder._extract_keywords` (lines 120–141): meta-keyword
tokens plus every vocabulary term occurring as a substring of the
lower-cased `get_text` of the (script/style-stripped) soup, deduplicated. -/
def extractKeywords (doc : List Node) : List String :=
  pyDedup (metaKeywordTokens doc
    ++ bibleTerms.filter (fun t => containsSub t.data (lowerStr (textOfL doc)).data))

/-- One record of the search index (`page_data`, lines 52–60).  The
modification time only matters up to equality, so it is carried as an
abstract integer timestamp. -/
structure IndexRecord where
  title : String
  url : String
  content : String
  headings : List (Nat × String × String)
  links : List (String × String)
  keywords : List String
  last_modified : Int
deriving Repr, DecidableEq

/-- `SearchIndexBuilder._index_file` (lines 44–63) on an already-parsed
document.  The `page_data` dict literal evaluates its fields in source
order: `title` first (on the intact soup), then `_extract_content`, whose
`decompose` calls prune every script/style subtree from the shared soup, so
`headings`, `links` and `keywords` all see the pruned tree.  `url` is the
root-relative path with backslashes replaced (`_get_relative_url`). -/
def mkRecord (relPath : String) (doc : List Node) (mtime : Int) : IndexRecord :=
  let title := extractTitle doc
  let doc2 := removeScriptStyleL doc
  { title := title
    url := pyReplace relPath "\\" "/"
    content := collapseWs (textOfL doc2)
    headings := extractHeadings doc2
    links := extractLinks doc2
    keywords := extractKeywords doc2
    last_modified := mtime }

/-! ### C6: record construction is deterministic in the file content -/

/-- C6.  Record construction is a pure function of the parsed document and
the relative path: for the same bytes (hence the same parse tree) the
`title`, `content`, `headings`, `links` and `keywords` fields are identical
whatever the modification timestamp is, and when the timestamp is also
unchanged the whole record is identical.  (The `keywords` field is compared
as the set the spec's data model declares it to be; Python's `list(set(…))`
ordering is realised deterministically in the model.) -/
theorem claimC6_theorem (p : String) (d : List Node) (t1 t2 : Int) :
    (mkRecord p d t1).title = (mkRecord p d t2).title
    ∧ (mkRecord p d t1).content = (mkRecord p d t2).content
    ∧ (mkRecord p d t1).headings = (mkRecord p d t2).headings
    ∧ (mkRecord p d t1).links = (mkRecord p d t2).links
    ∧ (mkRecord p d t1).keywords = (mkRecord p d t2).keywords
    ∧ (t1 = t2 → mkRecord p d t1 = mkRecord p d t2) := by
  refine ⟨rfl, rfl, rfl, rfl, rfl, ?_⟩
  intro h
  rw [h]

/-- A small document exercising title, headings, links and keywords. -/
def exIdxDoc : List Node :=
  [.elem "title" [] [.text " Psalm 23 "],
   .elem "h1" [("id", "top")] [.text "The Lord"],
   .elem "a" [("href", "bt.html")] [.text " next "],
   .elem "p" [] [.text "The Lord is my shepherd"]]

/-- C6, witness: two runs over the same parse tree with the same timestamp
give the same record, via `claimC6_theorem`. -/
theorem claimC6_witness :
    mkRecord "sub\\a.html" exIdxDoc 5 = mkRecord "sub\\a.html" exIdxDoc 5 :=
  ( claimC6_theorem "sub\\a.html" exIdxDoc 5 5).2.2.2.2.2 rfl

/-! ### C7: the links field -/

/-- Modelled from C7's words (for comparison with `extractLinks`): the
anchors with an href that is neither an absolute `http(s)` URL (leading
`http://` or `https://`) nor a pure fragment (leading `#`), as (raw href,
trimmed text), document order. -/
def linksClaimSpec (doc : List Node) : List (String × String) :=
  (findNodesL isAnchorHref doc).filterMap (fun n =>
    match getAttr n.attrsOf "href" with
    | some h =>
      if !(strStarts h "http://" || strStarts h "https://") && !strStarts h "#" then
        some (h, pyStrip (textOfN n))
      else none
    | none => none)

/-- The amended filter: the code tests `href.startswith('http')`, a plain
string-prefix test, not "is an absolute http(s) URL". -/
def linksAmendedSpec (doc : List Node) : List (String × String) :=
  (findNodesL isAnchorHref doc).filterMap (fun n =>
    match getAttr n.attrsOf "href" with
    | some h =>
      if !strStarts h "http" && !strStarts h "#" then some (h, pyStrip (textOfN n))
      else none
    | none => none)

/-- An anchor whose relative href merely begins with the letters `http`. -/
def exHttpxDoc : List Node := [.elem "a" [("href", "httpx.html")] [.text " t "]]

/-- C7, counterexample.  `href="httpx.html"` is a relative link — not an
absolute http(s) URL — so the claim requires it in the links field; the
code's `href.startswith('http')` test drops it. -/
theorem claimC7_counterexample :
    extractLinks exHttpxDoc = []
    ∧ linksClaimSpec exHttpxDoc = [("httpx.html", "t")] := by decide

theorem links_foldr_eq_filterMap (l : List Node) :
    l.foldr
      (fun n acc =>
        match getAttr n.attrsOf "href" with
        | some h =>
          if !strStarts h "http" && !strStarts h "#" then (h, pyStrip (textOfN n)) :: acc
          else acc
        | none => acc) []
    = l.filterMap (fun n =>
        match getAttr n.attrsOf "href" with
        | some h =>
          if !strStarts h "http" && !strStarts h "#" then some (h, pyStrip (textOfN n))
          else none
        | none => none) := by
  induction l with
  | nil => rfl
  | cons n rest ih =>
    simp only [List.foldr_cons, List.filterMap_cons, ih]
    match getAttr n.attrsOf "href" with
    | some h =>
      by_cases hc : (!strStarts h "http" && !strStarts h "#") = true
      · simp [hc]
      · simp only [Bool.not_eq_true] at hc
        simp [hc]
    | none => rfl

/-- C7, amended.  The links field contains exactly the anchors (with an
href attribute) whose href starts with neither the literal prefix `http`
— which drops not only absolute http(s) URLs but any href beginning with
those four letters — nor `#`, each as its raw href and whitespace-trimmed
text, in document order. -/
theorem claimC7_theorem (doc : List Node) :
    extractLinks doc = linksAmendedSpec doc :=
  links_foldr_eq_filterMap (findNodesL isAnchorHref doc)

/-! ### C10: keywords are scanned after script/style removal -/

theorem mem_dedupAux (a : String) :
    ∀ (l seen : List String), a ∈ dedupAux l seen → a ∈ l := by
  intro l
  induction l with
  | nil => intro seen h; exact absurd h (by simp [dedupAux])
  | cons x xs ih =>
    intro seen h
    by_cases hx : x ∈ seen
    · simp only [dedupAux, if_pos hx] at h
      exact List.mem_cons_of_mem x (ih seen h)
    · simp only [dedupAux, if_neg hx] at h
      rcases List.mem_cons.mp h with h | h
      · simp [h]
      · exact List.mem_cons_of_mem x (ih (x :: seen) h)

/-- C10.  The record's keyword scan runs on the tree left after
`_extract_content` has decomposed every `<script>`/`<style>` subtree
(field order in the `page_data` literal: title, url, content, headings,
links, keywords): the keywords field is `extractKeywords` of the pruned
tree, and a vocabulary term that does not occur in the pruned tree's
lower-cased text and is not among the meta keyword tokens — in particular
a term whose only occurrence was inside a script or style subtree — never
appears in the keywords set. -/
theorem claimC10_theorem (p : String) (d : List Node) (t : Int) (term : String)
    (hmeta : term ∉ metaKeywordTokens (removeScriptStyleL d))
    (htext : containsSub term.data
      (lowerStr (textOfL (removeScriptStyleL d))).data = false) :
    (mkRecord p d t).keywords = extractKeywords (removeScriptStyleL d)
    ∧ term ∉ (mkRecord p d t).keywords := by
  refine ⟨rfl, ?_⟩
  intro hmem
  have h1 : term ∈ metaKeywordTokens (removeScriptStyleL d)
      ++ bibleTerms.filter (fun t =>
        containsSub t.data (lowerStr (textOfL (removeScriptStyleL d))).data) :=
    mem_dedupAux term _ [] hmem
  rcases List.mem_append.mp h1 with h | h
  · exact hmeta h
  · have h2 := (List.mem_filter.mp h).2
    rw [htext] at h2
    cases h2

/-- A document whose only occurrence of "gospel" sits inside a script. -/
def exScriptDoc : List Node :=
  [.elem "script" [] [.text "var x = 'gospel';"],
   .elem "p" [] [.text "The Lord is my shepherd"]]

/-- C10, witness: "gospel" appears only inside the `<script>` subtree of
`exScriptDoc`, and indeed is absent from the keywords, via
`claimC10_theorem` (while "lord", present in visible text, is found). -/
theorem claimC10_witness :
    "gospel" ∉ (mkRecord "x.html" exScriptDoc 0).keywords
    ∧ "lord" ∈ (mkRecord "x.html" exScriptDoc 0).keywords :=
  ⟨( claimC10_theorem "x.html" exScriptDoc 0 "gospel" (by decide) (by decide)).2,
   by decide⟩

/-! ### C8: per-file failures do not abort a batch run -/

/-- The counters of `convert_all` (line 262). -/
structure ConvStats where
  converted : Nat
  failed : Nat
  skipped : Nat
deriving Repr, DecidableEq

/-- One file handed to the converter batch loop.  The whole per-file body
of `convert_file` (read, parse with BeautifulSoup, transform, write) can
raise; the shallow embedding carries that outcome as an `Except`: `.ok doc`
when every step succeeded, `.error e` when any exception was raised.  The
`try/except` of lines 39–84 catches the exception, logs it and returns
`False`. -/
structure ConvFile where
  path : String
  outcome : Except String (List Node)

/-- `convert_file`'s return value (lines 80–84): `True` on success,
`False` when the per-file exception was caught. -/
def convertFileRes (f : ConvFile) : Bool :=
  match f.outcome with
  | .ok _ => true
  | .error _ => false

/-- The skip test of line 279: `'_files'` or `'.DS_Store'` a substring of
the path. -/
def skipPath (p : String) : Bool :=
  containsSub "_files".data p.data || containsSub ".DS_Store".data p.data

/-- One iteration of the `convert_all` directory loop (lines 277–286). -/
def convStep (s : ConvStats) (f : ConvFile) : ConvStats :=
  if skipPath f.path then { s with skipped := s.skipped + 1 }
  else if convertFileRes f then { s with converted := s.converted + 1 }
  else { s with failed := s.failed + 1 }

/-- `HTMLConverter.convert_all` over a discovered file list (directory
mode, lines 274–288): a plain fold — every file is visited exactly once,
whatever the earlier outcomes were. -/
def convertAllStats (files : List ConvFile) : ConvStats :=
  files.foldl convStep { converted := 0, failed := 0, skipped := 0 }

/-- One file handed to the indexer batch loop: the whole `_index_file` body
(read, parse, build `page_data`) as an `Except` of the record it would
append. -/
structure IdxFile where
  path : String
  outcome : Except String IndexRecord

/-- `SearchIndexBuilder.build_index`'s loop (lines 32–36): `_index_file`
appends one record per file; the `try/except` catches any per-file
exception, logs a warning and moves on, so a failed file contributes
nothing. -/
def buildIndex (files : List IdxFile) : List IndexRecord :=
  files.foldr (fun f acc =>
    match f.outcome with
    | .ok r => r :: acc
    | .error _ => acc) []

theorem convStep_fields (s : ConvStats) (f : ConvFile) :
    (convStep s f).converted = s.converted + (convStep ⟨0, 0, 0⟩ f).converted
    ∧ (convStep s f).failed = s.failed + (convStep ⟨0, 0, 0⟩ f).failed
    ∧ (convStep s f).skipped = s.skipped + (convStep ⟨0, 0, 0⟩ f).skipped := by
  by_cases hs : skipPath f.path
  · simp [convStep, hs]
  · by_cases hc : convertFileRes f
    · simp [convStep, hs, hc]
    · simp [convStep, hs, hc]

theorem convStep_counts (ys : List ConvFile) (s : ConvStats) :
    (ys.foldl convStep s).converted
        = s.converted + (ys.foldl convStep ⟨0, 0, 0⟩).converted
    ∧ (ys.foldl convStep s).failed = s.failed + (ys.foldl convStep ⟨0, 0, 0⟩).failed
    ∧ (ys.foldl convStep s).skipped
        = s.skipped + (ys.foldl convStep ⟨0, 0, 0⟩).skipped := by
  induction ys generalizing s with
  | nil => simp
  | cons f ys ih =>
    have h1 := ih (convStep s f)
    have h2 := ih (convStep ⟨0, 0, 0⟩ f)
    have hf := convStep_fields s f
    simp only [List.foldl_cons]
    refine ⟨?_, ?_, ?_⟩
    · rw [h1.1, h2.1, hf.1]
      omega
    · rw [h1.2.1, h2.2.1, hf.2.1]
      omega
    · rw [h1.2.2, h2.2.2, hf.2.2]
      omega

theorem convStep_total (s : ConvStats) (f : ConvFile) :
    (convStep s f).converted + (convStep s f).failed + (convStep s f).skipped
      = s.converted + s.failed + s.skipped + 1 := by
  by_cases hs : skipPath f.path
  · simp only [convStep, if_pos hs]
    omega
  · by_cases hc : convertFileRes f
    · simp only [convStep, if_neg hs, if_pos hc]
      omega
    · simp only [convStep, if_neg hs, if_neg hc]
      omega

theorem convStats_total (files : List ConvFile) (s : ConvStats) :
    (files.foldl convStep s).converted + (files.foldl convStep s).failed
        + (files.foldl convStep s).skipped
      = s.converted + s.failed + s.skipped + files.length := by
  induction files generalizing s with
  | nil => simp
  | cons f ys ih =>
    have h := ih (convStep s f)
    have h2 := convStep_total s f
    simp only [List.foldl_cons, List.length_cons]
    omega

/-- C8.  A file whose per-file processing raises (outcome `.error`) does
not abort either batch: in the converter, the run still visits every file
(the counters sum to the file count), the failing file adds exactly 1 to
`failed` and leaves `converted`/`skipped` as they would be without it; in
the indexer, the failing file contributes no record and the records of the
files before and after it are untouched. -/
theorem claimC8_theorem (xs ys : List ConvFile) (bad : ConvFile) (e : String)
    (hbad : bad.outcome = .error e) (hskip : skipPath bad.path = false)
    (ixs iys : List IdxFile) (ibad : IdxFile) (e2 : String)
    (hibad : ibad.outcome = .error e2) :
    (convertAllStats (xs ++ bad :: ys)).failed = (convertAllStats (xs ++ ys)).failed + 1
    ∧ (convertAllStats (xs ++ bad :: ys)).converted
        = (convertAllStats (xs ++ ys)).converted
    ∧ (convertAllStats (xs ++ bad :: ys)).skipped = (convertAllStats (xs ++ ys)).skipped
    ∧ (convertAllStats (xs ++ bad :: ys)).converted
          + (convertAllStats (xs ++ bad :: ys)).failed
          + (convertAllStats (xs ++ bad :: ys)).skipped
        = (xs ++ bad :: ys).length
    ∧ buildIndex (ixs ++ ibad :: iys) = buildIndex ixs ++ buildIndex iys := by
  have hres : convertFileRes bad = false := by
    simp [convertFileRes, hbad]
  have hA : ∀ zs : List ConvFile, convertAllStats (xs ++ zs)
      = zs.foldl convStep (convertAllStats xs) := by
    intro zs
    simp [convertAllStats, List.foldl_append]
  have hs1 : (convStep (convertAllStats xs) bad).failed
      = (convertAllStats xs).failed + 1 := by
    simp [convStep, hskip, hres]
  have hs2 : (convStep (convertAllStats xs) bad).converted
      = (convertAllStats xs).converted := by
    simp [convStep, hskip, hres]
  have hs3 : (convStep (convertAllStats xs) bad).skipped
      = (convertAllStats xs).skipped := by
    simp [convStep, hskip, hres]
  have hcons : convertAllStats (xs ++ bad :: ys)
      = ys.foldl convStep (convStep (convertAllStats xs) bad) := by
    rw [hA (bad :: ys)]
    simp only [List.foldl_cons]
  have hy1 := convStep_counts ys (convStep (convertAllStats xs) bad)
  have hy2 := convStep_counts ys (convertAllStats xs)
  refine ⟨?_, ?_, ?_, ?_, ?_⟩
  · rw [hcons, hA ys, hy1.2.1, hy2.2.1, hs1]
    omega
  · rw [hcons, hA ys, hy1.1, hy2.1, hs2]
  · rw [hcons, hA ys, hy1.2.2, hy2.2.2, hs3]
  · have := convStats_total (xs ++ bad :: ys) ⟨0, 0, 0⟩
    simpa [convertAllStats] using this
  · have hb : buildIndex (ibad :: iys) = buildIndex iys := by
      simp [buildIndex, hibad]
    have happ : ∀ (us vs : List IdxFile),
        buildIndex (us ++ vs) = buildIndex us ++ buildIndex vs := by
      intro us vs
      induction us with
      | nil => simp [buildIndex]
      | cons u us ih =>
        simp only [buildIndex, List.foldr_cons, List.foldr_append] at ih ⊢
        cases hu : u.outcome <;> simp [hu, ih]
    rw [happ, hb]

/-- Concrete batch: one good file, one erroring file, one good file. -/
def exGood1 : ConvFile := ⟨"a.html", .ok [.elem "p" [] [.text "a"]]⟩
/-- A file whose read/parse raises. -/
def exBad : ConvFile := ⟨"b.html", .error "ParserRejectedMarkup"⟩
/-- Another good file after the failing one. -/
def exGood2 : ConvFile := ⟨"c.html", .ok [.elem "p" [] [.text "c"]]⟩
/-- Indexer batch: a good record. -/
def exIdxGood1 : IdxFile := ⟨"a.html", .ok (mkRecord "a.html" [] 0)⟩
/-- Indexer batch: a file whose indexing raises. -/
def exIdxBad : IdxFile := ⟨"b.html", .error "boom"⟩
/-- Indexer batch: a good record after the failing file. -/
def exIdxGood2 : IdxFile := ⟨"c.html", .ok (mkRecord "c.html" [] 1)⟩

/-- C8, witness: in the batch [good, failing, good] the failing middle file
adds one failure, both neighbours are still converted, and the indexer
keeps exactly the two good records, via `claimC8_theorem`. -/
theorem claimC8_witness :
    (convertAllStats [exGood1, exBad, exGood2]).failed
        = (convertAllStats [exGood1, exGood2]).failed + 1
    ∧ (convertAllStats [exGood1, exBad, exGood2]).converted
        = (convertAllStats [exGood1, exGood2]).converted
    ∧ buildIndex [exIdxGood1, exIdxBad, exIdxGood2]
      = buildIndex [exIdxGood1] ++ buildIndex [exIdxGood2] := by
  have h := claimC8_theorem [exGood1] [exGood2] exBad "ParserRejectedMarkup" rfl
    (by decide) [exIdxGood1] [exIdxGood2] exIdxBad "boom" rfl
  exact ⟨h.1, h.2.1, h.2.2.2.2⟩

/-! ### C9: the sitemap -/

/-- `Path.name`: the component after the last slash. -/
def fileName (p : String) : String :=
  String.mk ((p.data.reverse.takeWhile (fun c => !(c == '/'))).reverse)

/-- `BibleTextsSetup._create_sitemap` (setup.py lines 129–152), reduced to
the data each emitted `<url>` block carries: for every discovered `.html`
file (as a root-relative path, discovery order) whose *name* is not
`index.html` (line 138), one entry with
`loc = "https://bibletexts.com/" + rel_path` and `lastmod` the file's raw
`st_mtime` value, carried here as the opaque string interpolated into the
XML (`changefreq`/`priority` are fixed). -/
def sitemapEntries (files : List (String × String)) : List (String × String) :=
  (files.filter (fun f => !(fileName f.1 == "index.html"))).map
    (fun f => ("https://bibletexts.com/" ++ f.1, f.2))

/-- C9, evaluation at the failing input.  The claim (and setup.py's own
comment, "Skip if it's the main index") excludes only the root
`index.html`; the code's test `html_file.name != "index.html"` compares the
bare file name, so a nested `sub/index.html` — which the claim requires in
the sitemap — gets no entry.  The surviving entry shows the raw
modification-time value passed straight through into `lastmod`. -/
theorem claimC9_code_eval :
    sitemapEntries [("a.html", "1700000000.123"), ("sub/index.html", "1700000001.5"),
        ("index.html", "1700000002.0")]
      = [("https://bibletexts.com/a.html", "1700000000.123")] := by decide

end BT
